import Mathlib

/-!
# Verification of the veneur metric-sink dispatch layer

This file gives a shallow embedding of the repository's metric sink code
(`src/sinks/datadog/datadog.go`) and of the SignalFx-style dispatch pipeline
that is exercised by the repository's tests, and proves or refutes the
specification's claims about them.

Modelling conventions:
* Go `int` arithmetic is modelled on `Int`, with Go's truncated division
  (`Int.tdiv`, which rounds toward zero exactly as Go's `/` does); a Go
  division by zero is a runtime panic, modelled by `Option` (`none`).
* Go `float64` values are modelled as `ℚ`; none of the verified claims
  depends on floating-point rounding.
* Go strings are modelled as Lean `String`s, and byte-level operations
  (`strings.HasPrefix`, slicing `tag[5:]`) are modelled on the character
  list `String.data`; all strings involved are ASCII, where the two views
  coincide.
* In-place mutation of caller-supplied slices is modelled by explicit state
  passing: the function returns the post-state of the slices it mutated.
-/

namespace Veneur

/-- Go's `/` on `int`: truncated division, panicking (modelled as `none`)
on a zero divisor. -/
def goDiv (a b : Int) : Option Int :=
  if b = 0 then none else some (a.tdiv b)

/-- Go's `strings.HasPrefix`, on the character-list view of strings. -/
def goStartsWith (s pre : String) : Bool :=
  pre.data.isPrefixOf s.data

/-- Go's string slicing `s[n:]`, on the character-list view of strings. -/
def goDropChars (s : String) (n : Nat) : String :=
  String.mk (s.data.drop n)

/-- The key of a `"key:value"` tag string: everything before the first `:`
(the whole string when there is no colon). This is the spec's step-3 parsing
convention for raw tags. -/
def tagKey (t : String) : String :=
  String.mk (t.data.takeWhile (fun c => c ≠ ':'))

/-- The value of a `"key:value"` tag string: everything after the first `:`
(empty when there is no colon). -/
def tagVal (t : String) : String :=
  String.mk ((t.data.dropWhile (fun c => c ≠ ':')).drop 1)

namespace Datadog

/-- `samplers.InterMetric`'s metric type, as used by the Datadog sink:
counters, gauges, and the status type (which the Datadog sink does not
handle). -/
inductive MetricType where
  | counter
  | gauge
  | status
deriving DecidableEq, Repr

/-- `samplers.InterMetric`: one canonical metric record. -/
structure InterMetric where
  name : String
  timestamp : Int
  value : ℚ
  tags : List String
  type : MetricType
deriving DecidableEq, Repr

/-- `DDMetric`: the wire record posted to the Datadog series endpoint.
`value` models the `[1][2]float64` points field as the single
`(timestamp, value)` pair. The `int32` interval field is modelled on `Int`
(flush intervals are far from the `int32` range). -/
structure DDMetric where
  name : String
  value : ℚ × ℚ
  tags : List String
  metricType : String
  hostname : String
  deviceName : String
  interval : Int
deriving DecidableEq, Repr

/-- The zero value of Go's `DDMetric` struct: what a slot of
`make([]DDMetric, n)` holds when it is never assigned. -/
def zeroDDMetric : DDMetric :=
  { name := "", value := (0, 0), tags := [], metricType := "",
    hostname := "", deviceName := "", interval := 0 }

/-- The configuration fields of `DatadogMetricSink` that the verified code
paths read (`hostname`, `tags`, `interval`, `flushMaxPerBody`); the HTTP
client, statsd handle, logger, API key and Datadog URL only affect I/O. -/
structure Sink where
  hostname : String
  tags : List String
  interval : ℚ
  flushMaxPerBody : Nat
deriving Repr

/-- Go's `int32(float64)` conversion truncates toward zero. -/
def goTruncQ (q : ℚ) : Int :=
  q.num.tdiv (q.den : Int)

/-- The magic-tag scan of `finalizeMetrics`'s inner loop: `host:` tags
override the hostname, `device:` tags override the device name, everything
else is appended to the wire record's tags. -/
def scanTag (acc : DDMetric) (t : String) : DDMetric :=
  if goStartsWith t "host:" then { acc with hostname := goDropChars t 5 }
  else if goStartsWith t "device:" then { acc with deviceName := goDropChars t 7 }
  else { acc with tags := acc.tags ++ [t] }

/-- The loop body of `finalizeMetrics` for one metric whose type survived
the `switch` (counter or gauge): build the `DDMetric` with a copy of the
sink's common tags, scan the record's tags for the `host:`/`device:` magic
prefixes, and default the hostname afterwards. For a `status` metric this
function is never reached by `finalizeMetrics` (the `switch` hits `default`
and `continue`s). -/
def finalizeOne (dd : Sink) (m : InterMetric) : DDMetric :=
  let metricType : String :=
    match m.type with
    | .counter => "rate"
    | .gauge => "gauge"
    | .status => ""
  let value : ℚ :=
    match m.type with
    | .counter => m.value / dd.interval
    | _ => m.value
  let base : DDMetric :=
    { name := m.name
      value := ((m.timestamp : ℚ), value)
      tags := dd.tags
      metricType := metricType
      hostname := ""
      deviceName := ""
      interval := goTruncQ dd.interval }
  let scanned := m.tags.foldl scanTag base
  if scanned.hostname = "" then { scanned with hostname := dd.hostname } else scanned

/-- Whether the `switch` in `finalizeMetrics` handles this metric type
(`default:` logs and `continue`s). -/
def knownType : MetricType → Bool
  | .counter => true
  | .gauge => true
  | .status => false

/-- `finalizeMetrics`: the result slice is pre-allocated with
`make([]DDMetric, len(metrics))`, so a metric skipped by `continue` leaves
the zero `DDMetric` in its slot. -/
def finalizeMetrics (dd : Sink) (metrics : List InterMetric) : List DDMetric :=
  metrics.map (fun m => if knownType m.type then finalizeOne dd m else zeroDDMetric)

/-- The chunking arithmetic of `Flush`:
`workers := ((len(metrics)-1)/flushMaxPerBody) + 1` and
`chunkSize := ((len(metrics)-1)/workers) + 1`, in Go `int` arithmetic.
`none` models the division-by-zero panic (which happens when `workers`
computes to `0`). -/
def flushPlan (n m : Nat) : Option (Int × Int) :=
  (goDiv ((n : Int) - 1) (m : Int)).bind fun w0 =>
    (goDiv ((n : Int) - 1) (w0 + 1)).map fun c0 => (w0 + 1, c0 + 1)

/-- The chunks built by `Flush`'s dispatch loop: for `i < workers`,
`chunk := metrics[i*chunkSize:]`, trimmed to `chunk[:chunkSize]` for every
chunk but the last. -/
def flushChunks (metrics : List DDMetric) (m : Nat) : Option (List (List DDMetric)) :=
  (flushPlan metrics.length m).map fun wc =>
    (List.range wc.1.toNat).map fun i =>
      let chunk := metrics.drop (i * wc.2.toNat)
      if i < wc.1.toNat - 1 then chunk.take wc.2.toNat else chunk

/-- `Flush`, with the destination client abstracted as a capability
`submit : chunk → error`. Each chunk is handed to `flushPart`, which calls
`postHelper` and discards its error; `Flush` waits for all parts and then
executes `return nil`. The result pairs the per-chunk submission outcomes
(in chunk order) with `Flush`'s own return value, which the source fixes to
`nil` (`none`); `none` overall models the chunking panic. -/
def Flush (submit : List DDMetric → Option String) (dd : Sink)
    (interMetrics : List InterMetric) : Option (List (Option String) × Option String) :=
  let metrics := finalizeMetrics dd interMetrics
  (flushChunks metrics dd.flushMaxPerBody).map fun cs => (cs.map submit, none)

/-- `samplers.UDPEvent`, restricted to the fields `FlushEventsChecks`
touches. -/
structure UDPEvent where
  hostname : String
  tags : List String
deriving DecidableEq, Repr

/-- `samplers.UDPServiceCheck`, restricted to the fields
`FlushEventsChecks` touches. -/
structure UDPServiceCheck where
  hostname : String
  tags : List String
deriving DecidableEq, Repr

/-- The mutation `FlushEventsChecks` performs on the caller's slices,
modelled by returning the post-state of both slices: every element with an
empty `Hostname` gets the sink's hostname, and the sink's common tags are
appended to every element's `Tags`. -/
def FlushEventsChecks (dd : Sink) (events : List UDPEvent)
    (checks : List UDPServiceCheck) : List UDPEvent × List UDPServiceCheck :=
  (events.map fun e =>
     { e with
       hostname := if e.hostname = "" then dd.hostname else e.hostname
       tags := e.tags ++ dd.tags },
   checks.map fun c =>
     { c with
       hostname := if c.hostname = "" then dd.hostname else c.hostname
       tags := c.tags ++ dd.tags })

end Datadog

namespace SignalFx

/-!
The SignalFx-style sink's implementation is not part of the sources; only
its test file is. The definitions in this namespace are therefore modelled
from the specification (its TagPipeline §4.1, DropRuleSet §4.2 and
RouteSelector §4.3), with the concrete reserved route-hint key
`"veneursinkonly"` and the sink name `"signalfx"` taken from the test file.
-/

/-- One canonical metric record as the SignalFx-style sink sees it: the
name, tag list and the producer's route-hint set (`InterMetric.Sinks`),
a set of sink names the record is pinned to (empty means unrestricted). -/
structure Record where
  name : String
  tags : List String
  sinks : List String
deriving DecidableEq, Repr

/-- Insert-or-replace into an association-list dimension mapping: keys are
unique and the last write wins. -/
def upsert (m : List (String × String)) (k v : String) : List (String × String) :=
  (m.filter fun p => !(p.1 = k : Bool)) ++ [(k, v)]

/-- The key set of a dimension mapping. -/
def dimKeys (m : List (String × String)) : List String :=
  m.map Prod.fst

/-- The dimension mapping under construction, together with the extracted
device-name override field. -/
structure Dims where
  dims : List (String × String)
  device : Option String
deriving DecidableEq, Repr

/-- Modelled from the spec: the TagPipeline transform (§4.1) of the
SignalFx-style sink, whose implementation is absent from the sources.
Seed the output with the common dimensions and the
`hostnameKey ↦ hostnameValue` dimension; split each raw tag on its first
colon; the magic keys `host` and `device` override the hostname dimension
and the device field instead of becoming dimensions; keys in `reserved`
(the event-identifier key and the `veneursinkonly` route-hint key) are
consumed; every other key becomes a dimension, last write winning; finally
every excluded key is removed, even when it was seeded by the common or
hostname dimensions. `addTag` is the per-tag step of that pipeline. -/
def addTag (hostnameKey : String) (reserved : List String) (st : Dims) (t : String) : Dims :=
  let k := tagKey t
  if k = "host" then { st with dims := upsert st.dims hostnameKey (tagVal t) }
  else if k = "device" then { st with device := some (tagVal t) }
  else if k ∈ reserved then st
  else { st with dims := upsert st.dims k (tagVal t) }

/-- Modelled from the spec: the whole TagPipeline transform (§4.1), seeding
with the common dimensions and the hostname dimension, folding `addTag`
over the raw tags and finally applying the excluded-key set. -/
def transform (commonDims : List (String × String)) (hostnameKey hostnameValue : String)
    (reserved : List String) (excluded : List String) (rawTags : List String) : Dims :=
  let seed0 := commonDims.foldl (fun m p => upsert m p.1 p.2) []
  let seed := upsert seed0 hostnameKey hostnameValue
  let scanned := rawTags.foldl (addTag hostnameKey reserved) { dims := seed, device := none }
  { scanned with dims := scanned.dims.filter fun p => !(p.1 ∈ excluded : Bool) }

/-- Modelled from the spec: the DropRuleSet (§4.2). A record is dropped iff
its name has a configured prefix, or its tag list contains a configured
literal `"key:value"` tag verbatim. -/
def shouldDrop (namePfxs : List String) (literalTags : List String) (r : Record) : Bool :=
  namePfxs.any (fun p => goStartsWith r.name p) || r.tags.any (fun t => t ∈ literalTags)

/-- Modelled from the spec: the route-hint restriction (§4.3). A record
with a non-empty route-hint set is admitted only when the sink's identity
is in the set; an empty set imposes no restriction. -/
def hintAllows (sinkName : String) (r : Record) : Bool :=
  r.sinks.isEmpty || sinkName ∈ r.sinks

/-- Modelled from the spec: the RouteSelector (§4.3). `none` is the
fallback destination; a configured empty route-tag key disables routing;
otherwise the first `routeKey:value` tag with a mapped value selects that
destination. -/
def routeDest (routeKey : String) (mappedKeys : List String) (r : Record) : Option String :=
  if routeKey = "" then none
  else
    match r.tags.find? (fun t => tagKey t = routeKey) with
    | some t => if tagVal t ∈ mappedKeys then some (tagVal t) else none
    | none => none

/-- The sink-level configuration of the SignalFx-style flush pipeline. -/
structure Config where
  sinkName : String
  routeKey : String
  mappedKeys : List String
  namePfxs : List String
  literalTags : List String
deriving Repr

/-- Modelled from the spec: the record-to-destination assignment computed
by one flush (§2 data flow): drop-rule rejection first, then the
route-hint restriction, then destination selection; the result pairs every
delivered record with its destination (`none` = fallback). -/
def flushAssign (cfg : Config) (records : List Record) : List (Option String × Record) :=
  records.filterMap fun r =>
    if shouldDrop cfg.namePfxs cfg.literalTags r then none
    else if hintAllows cfg.sinkName r then some (routeDest cfg.routeKey cfg.mappedKeys r, r)
    else none

/-! ## Dimension-key lemmas (claim C5) -/

theorem mem_dimKeys_upsert (m : List (String × String)) (k v j : String) :
    j ∈ dimKeys (upsert m k v) ↔ j ∈ dimKeys m ∨ j = k := by
  by_cases hjk : j = k
  · subst hjk
    simp [dimKeys, upsert]
  · simp only [dimKeys, upsert, List.map_append, List.mem_append, List.mem_map,
      List.mem_filter, List.map_cons, List.map_nil, List.mem_singleton,
      Bool.not_eq_true', decide_eq_false_iff_not]
    constructor
    · rintro (⟨p, ⟨hp, _⟩, rfl⟩ | h)
      · exact Or.inl ⟨p, hp, rfl⟩
      · exact absurd h hjk
    · rintro (⟨p, hp, rfl⟩ | h)
      · exact Or.inl ⟨p, ⟨hp, hjk⟩, rfl⟩
      · exact absurd h hjk

theorem mem_dimKeys_seed (common : List (String × String))
    (acc : List (String × String)) (j : String) :
    j ∈ dimKeys (common.foldl (fun m p => upsert m p.1 p.2) acc) ↔
      j ∈ dimKeys acc ∨ j ∈ dimKeys common := by
  induction common generalizing acc with
  | nil => simp [dimKeys]
  | cons p ps ih =>
    rw [List.foldl_cons, ih, mem_dimKeys_upsert]
    simp only [dimKeys, List.map_cons, List.mem_cons]
    tauto

theorem mem_dimKeys_scan (hostnameKey : String) (reserved : List String)
    (tags : List String) (st : Dims) (j : String) :
    j ∈ dimKeys ((tags.foldl (addTag hostnameKey reserved) st).dims) ↔
      j ∈ dimKeys st.dims ∨
      (j = hostnameKey ∧ ∃ t ∈ tags, tagKey t = "host") ∨
      (∃ t ∈ tags, tagKey t = j ∧ tagKey t ≠ "host" ∧ tagKey t ≠ "device" ∧
        tagKey t ∉ reserved) := by
  induction tags generalizing st with
  | nil => simp
  | cons t ts ih =>
    rw [List.foldl_cons]
    by_cases h1 : tagKey t = "host"
    · rw [show addTag hostnameKey reserved st t
          = { st with dims := upsert st.dims hostnameKey (tagVal t) } by
            simp [addTag, h1]]
      rw [ih, mem_dimKeys_upsert]
      simp only [List.mem_cons, h1]
      constructor
      · rintro ((hd | rfl) | ⟨rfl, t', ht', hk⟩ | ⟨t', ht', hk⟩)
        · exact Or.inl hd
        · exact Or.inr (Or.inl ⟨rfl, t, Or.inl rfl, h1⟩)
        · exact Or.inr (Or.inl ⟨rfl, t', Or.inr ht', hk⟩)
        · exact Or.inr (Or.inr ⟨t', Or.inr ht', hk⟩)
      · rintro (hd | ⟨rfl, t', (rfl | ht'), hk⟩ | ⟨t', (rfl | ht'), hk, hk2, hk3, hk4⟩)
        · exact Or.inl (Or.inl hd)
        · exact Or.inl (Or.inr rfl)
        · exact Or.inr (Or.inl ⟨rfl, t', ht', hk⟩)
        · exact absurd h1 hk2
        · exact Or.inr (Or.inr ⟨t', ht', hk, hk2, hk3, hk4⟩)
    · by_cases h2 : tagKey t = "device"
      · rw [show addTag hostnameKey reserved st t
            = { st with device := some (tagVal t) } by simp [addTag, h1, h2]]
        rw [ih]
        simp only [List.mem_cons]
        constructor
        · rintro (hd | ⟨rfl, t', ht', hk⟩ | ⟨t', ht', hk⟩)
          · exact Or.inl hd
          · exact Or.inr (Or.inl ⟨rfl, t', Or.inr ht', hk⟩)
          · exact Or.inr (Or.inr ⟨t', Or.inr ht', hk⟩)
        · rintro (hd | ⟨rfl, t', (rfl | ht'), hk⟩ | ⟨t', (rfl | ht'), hk, hk2, hk3, hk4⟩)
          · exact Or.inl hd
          · exact absurd hk h1
          · exact Or.inr (Or.inl ⟨rfl, t', ht', hk⟩)
          · exact absurd h2 hk3
          · exact Or.inr (Or.inr ⟨t', ht', hk, hk2, hk3, hk4⟩)
      · by_cases h3 : tagKey t ∈ reserved
        · rw [show addTag hostnameKey reserved st t = st by simp [addTag, h1, h2, h3]]
          rw [ih]
          simp only [List.mem_cons]
          constructor
          · rintro (hd | ⟨rfl, t', ht', hk⟩ | ⟨t', ht', hk⟩)
            · exact Or.inl hd
            · exact Or.inr (Or.inl ⟨rfl, t', Or.inr ht', hk⟩)
            · exact Or.inr (Or.inr ⟨t', Or.inr ht', hk⟩)
          · rintro (hd | ⟨rfl, t', (rfl | ht'), hk⟩ | ⟨t', (rfl | ht'), hk, hk2, hk3, hk4⟩)
            · exact Or.inl hd
            · exact absurd hk h1
            · exact Or.inr (Or.inl ⟨rfl, t', ht', hk⟩)
            · exact absurd h3 hk4
            · exact Or.inr (Or.inr ⟨t', ht', hk, hk2, hk3, hk4⟩)
        · rw [show addTag hostnameKey reserved st t
              = { st with dims := upsert st.dims (tagKey t) (tagVal t) } by
                simp [addTag, h1, h2, h3]]
          rw [ih, mem_dimKeys_upsert]
          simp only [List.mem_cons]
          constructor
          · rintro ((hd | rfl) | ⟨rfl, t', ht', hk⟩ | ⟨t', ht', hk⟩)
            · exact Or.inl hd
            · exact Or.inr (Or.inr ⟨t, Or.inl rfl, rfl, h1, h2, h3⟩)
            · exact Or.inr (Or.inl ⟨rfl, t', Or.inr ht', hk⟩)
            · exact Or.inr (Or.inr ⟨t', Or.inr ht', hk⟩)
          · rintro (hd | ⟨rfl, t', (rfl | ht'), hk⟩ | ⟨t', (rfl | ht'), hk, hk2, hk3, hk4⟩)
            · exact Or.inl (Or.inl hd)
            · exact absurd hk h1
            · exact Or.inr (Or.inl ⟨rfl, t', ht', hk⟩)
            · exact Or.inl (Or.inr hk.symm)
            · exact Or.inr (Or.inr ⟨t', ht', hk, hk2, hk3, hk4⟩)

theorem mem_dimKeys_filter_excluded (dims : List (String × String))
    (excluded : List String) (j : String) :
    j ∈ dimKeys (dims.filter fun p => !(p.1 ∈ excluded : Bool)) ↔
      j ∈ dimKeys dims ∧ j ∉ excluded := by
  simp only [dimKeys, List.mem_map, List.mem_filter, Bool.not_eq_true',
    decide_eq_false_iff_not]
  constructor
  · rintro ⟨p, ⟨hp, hex⟩, rfl⟩
    exact ⟨⟨p, hp, rfl⟩, hex⟩
  · rintro ⟨⟨p, hp, rfl⟩, hex⟩
    exact ⟨p, ⟨hp, hex⟩, rfl⟩

/-- C5 (spec-modelled): for every record, the emitted dimension-key set
equals the configured common dimension keys, plus the hostname dimension
key, plus the record's non-magic, non-reserved tag keys, minus the
excluded keys — and an excluded key is removed even when it names a common
or hostname dimension. -/
theorem sfx_dimension_keys (commonDims : List (String × String))
    (hostnameKey hostnameValue : String) (reserved excluded : List String)
    (rawTags : List String) (k : String) :
    k ∈ dimKeys (transform commonDims hostnameKey hostnameValue reserved excluded rawTags).dims
      ↔ ((k ∈ dimKeys commonDims ∨ k = hostnameKey ∨
          (∃ t ∈ rawTags, tagKey t = k ∧ tagKey t ≠ "host" ∧ tagKey t ≠ "device" ∧
            tagKey t ∉ reserved)) ∧
         k ∉ excluded) := by
  simp only [transform]
  rw [mem_dimKeys_filter_excluded, mem_dimKeys_scan, mem_dimKeys_upsert, mem_dimKeys_seed]
  have hempty : k ∈ dimKeys ([] : List (String × String)) ↔ False := by simp [dimKeys]
  rw [hempty]
  constructor
  · rintro ⟨((hf | hc) | rfl) | ⟨rfl, -⟩ | hp, hex⟩
    · exact absurd hf id
    · exact ⟨Or.inl hc, hex⟩
    · exact ⟨Or.inr (Or.inl rfl), hex⟩
    · exact ⟨Or.inr (Or.inl rfl), hex⟩
    · exact ⟨Or.inr (Or.inr hp), hex⟩
  · rintro ⟨hc | rfl | hp, hex⟩
    · exact ⟨Or.inl (Or.inl (Or.inr hc)), hex⟩
    · exact ⟨Or.inl (Or.inr rfl), hex⟩
    · exact ⟨Or.inr (Or.inr hp), hex⟩

/-- The spec-modelled pipeline reproduces the repository's
`TestSignalFxFlushGauge` dimensions: common `yay:pie`, hostname
`host:glooblestoots`, record tags `foo:bar` and `baz:quz` yield exactly
those four dimensions. -/
theorem transform_matches_gauge_test :
    (transform [("yay", "pie")] "host" "glooblestoots" ["veneursinkonly"] []
        ["foo:bar", "baz:quz"]).dims =
      [("yay", "pie"), ("host", "glooblestoots"), ("foo", "bar"), ("baz", "quz")] := by
  decide

/-- The spec-modelled pipeline reproduces the repository's
`TestSignalFxSetExcludeTags` dimensions: excluding `foo`, `boo` and `host`
suppresses the record tag `foo:bar`, the common dimension `boo:snakes` and
the hostname dimension, leaving `yay:pie`, `baz:quz` and `novalue:`. -/
theorem transform_matches_exclude_test :
    (transform [("yay", "pie"), ("boo", "snakes")] "host" "glooblestoots"
        ["veneursinkonly"] ["foo", "boo", "host"]
        ["foo:bar", "baz:quz", "novalue"]).dims =
      [("yay", "pie"), ("baz", "quz"), ("novalue", "")] := by
  decide

/-! ## Drop rules (claim C7) and route hints (claim C8) -/

theorem mem_flushAssign (cfg : Config) (records : List Record)
    (d : Option String) (r : Record) :
    (d, r) ∈ flushAssign cfg records ↔
      r ∈ records ∧ shouldDrop cfg.namePfxs cfg.literalTags r = false ∧
      hintAllows cfg.sinkName r = true ∧ d = routeDest cfg.routeKey cfg.mappedKeys r := by
  rw [flushAssign, List.mem_filterMap]
  constructor
  · rintro ⟨a, ha, hfa⟩
    by_cases h1 : shouldDrop cfg.namePfxs cfg.literalTags a = true
    · rw [if_pos h1] at hfa
      exact absurd hfa (by simp)
    · rw [if_neg h1] at hfa
      by_cases h2 : hintAllows cfg.sinkName a = true
      · rw [if_pos h2] at hfa
        have hpair := Option.some.inj hfa
        have har : a = r := congrArg Prod.snd hpair
        have hdr : routeDest cfg.routeKey cfg.mappedKeys a = d := congrArg Prod.fst hpair
        subst har
        exact ⟨ha, Bool.not_eq_true _ ▸ h1, h2, hdr.symm⟩
      · rw [if_neg h2] at hfa
        exact absurd hfa (by simp)
  · rintro ⟨hr, h1, h2, rfl⟩
    refine ⟨r, hr, ?_⟩
    rw [if_neg (by simp [h1]), if_pos h2]

/-- C7 (spec-modelled): a record whose name matches a configured drop
prefix or whose tags contain a configured literal drop tag is delivered to
no destination at all, fallback included, while every non-dropped,
non-hint-excluded record of the same flush is still delivered to its
selected destination. -/
theorem sfx_drop_rules (cfg : Config) (records : List Record) (r : Record)
    (hr : r ∈ records) :
    (shouldDrop cfg.namePfxs cfg.literalTags r = true →
      ∀ d, (d, r) ∉ flushAssign cfg records) ∧
    (shouldDrop cfg.namePfxs cfg.literalTags r = false →
      hintAllows cfg.sinkName r = true →
      (routeDest cfg.routeKey cfg.mappedKeys r, r) ∈ flushAssign cfg records) := by
  constructor
  · intro hdrop d hmem
    obtain ⟨-, h1, -, -⟩ := (mem_flushAssign cfg records d r).mp hmem
    rw [hdrop] at h1
    exact Bool.noConfusion h1
  · intro hdrop hhint
    exact (mem_flushAssign cfg records _ r).mpr ⟨hr, hdrop, hhint, rfl⟩

/-- C8 (spec-modelled): a record with a non-empty route-hint set naming
this sink is delivered; one with a non-empty set not naming this sink is
excluded entirely, not even reaching the fallback; a record with an empty
route-hint set is unrestricted. -/
theorem sfx_route_hints (cfg : Config) (records : List Record) (r : Record)
    (hr : r ∈ records) (hdrop : shouldDrop cfg.namePfxs cfg.literalTags r = false) :
    (cfg.sinkName ∈ r.sinks →
      (routeDest cfg.routeKey cfg.mappedKeys r, r) ∈ flushAssign cfg records) ∧
    (r.sinks ≠ [] → cfg.sinkName ∉ r.sinks →
      ∀ d, (d, r) ∉ flushAssign cfg records) ∧
    (r.sinks = [] →
      (routeDest cfg.routeKey cfg.mappedKeys r, r) ∈ flushAssign cfg records) := by
  refine ⟨?_, ?_, ?_⟩
  · intro hin
    refine (mem_flushAssign cfg records _ r).mpr ⟨hr, hdrop, ?_, rfl⟩
    simp [hintAllows, hin]
  · intro hne hnin d hmem
    obtain ⟨-, -, h2, -⟩ := (mem_flushAssign cfg records d r).mp hmem
    rw [hintAllows] at h2
    simp only [Bool.or_eq_true, List.isEmpty_iff, decide_eq_true_eq] at h2
    rcases h2 with h2 | h2
    · exact hne h2
    · exact hnin h2
  · intro hempty
    refine (mem_flushAssign cfg records _ r).mpr ⟨hr, hdrop, ?_, rfl⟩
    simp [hintAllows, hempty]

/-! ## Fixtures from the repository's tests -/

/-- The configuration of `TestSignalFxFlushWithDrops`: drop prefix
`foo.bar`, literal drop tag `baz:gorch`, no routing. -/
def cfgDrop : Config :=
  { sinkName := "signalfx", routeKey := "", mappedKeys := [],
    namePfxs := ["foo.bar"], literalTags := ["baz:gorch"] }

/-- The record of `TestSignalFxFlushWithDrops` dropped by name prefix. -/
def dropRec1 : Record :=
  { name := "foo.bar.baz", tags := ["foo:bar", "baz:quz", "novalue"], sinks := [] }

/-- The record of `TestSignalFxFlushWithDrops` that is delivered. -/
def dropRec2 : Record :=
  { name := "fart.farts", tags := ["foo:bar", "baz:quz", "novalue"], sinks := [] }

/-- The record of `TestSignalFxFlushWithDrops` dropped by literal tag. -/
def dropRec3 : Record :=
  { name := "fart.farts2", tags := ["baz:gorch", "baz:quz", "novalue"], sinks := [] }

/-- The drop-test record list. -/
def dropRecs : List Record := [dropRec1, dropRec2, dropRec3]

/-- The configuration of `TestSignalFxFlushRouting`: no drop rules, no
route-tag routing, sink identity `signalfx`. -/
def cfgRoute : Config :=
  { sinkName := "signalfx", routeKey := "", mappedKeys := [],
    namePfxs := [], literalTags := [] }

/-- The routing-test record pinned to `signalfx`. -/
def routeRecSfx : Record :=
  { name := "sfx", tags := ["foo:bar", "baz:quz", "veneursinkonly:signalfx"],
    sinks := ["signalfx"] }

/-- The routing-test record pinned to another sink. -/
def routeRecOther : Record :=
  { name := "not.us", tags := ["foo:bar", "baz:quz", "veneursinkonly:anyone_else"],
    sinks := ["anyone_else"] }

/-- The routing-test record with no route hints. -/
def routeRecAny : Record :=
  { name := "any", tags := ["foo:bar", "baz:quz"], sinks := [] }

/-- The routing-test record list. -/
def routeRecs : List Record := [routeRecAny, routeRecSfx, routeRecOther]

/-- The spec-modelled flush reproduces `TestSignalFxFlushWithDrops`: only
`fart.farts` is delivered. -/
theorem flushAssign_matches_drop_test :
    flushAssign cfgDrop dropRecs = [(none, dropRec2)] := by
  decide

/-- The spec-modelled flush reproduces `TestSignalFxFlushRouting`: `any`
and `sfx` are delivered to the fallback, `not.us` to nothing. -/
theorem flushAssign_matches_routing_test :
    flushAssign cfgRoute routeRecs = [(none, routeRecAny), (none, routeRecSfx)] := by
  decide

/-- Witness for C7 at the drop-test fixtures: the prefix-dropped record. -/
theorem sfx_drop_rules_witness :
    (shouldDrop cfgDrop.namePfxs cfgDrop.literalTags dropRec1 = true →
      ∀ d, (d, dropRec1) ∉ flushAssign cfgDrop dropRecs) ∧
    (shouldDrop cfgDrop.namePfxs cfgDrop.literalTags dropRec1 = false →
      hintAllows cfgDrop.sinkName dropRec1 = true →
      (routeDest cfgDrop.routeKey cfgDrop.mappedKeys dropRec1, dropRec1)
        ∈ flushAssign cfgDrop dropRecs) :=
  sfx_drop_rules cfgDrop dropRecs dropRec1 (by decide)

/-- Witness for C8 at the routing-test fixtures: the record pinned to
another sink. -/
theorem sfx_route_hints_witness :
    (cfgRoute.sinkName ∈ routeRecOther.sinks →
      (routeDest cfgRoute.routeKey cfgRoute.mappedKeys routeRecOther, routeRecOther)
        ∈ flushAssign cfgRoute routeRecs) ∧
    (routeRecOther.sinks ≠ [] → cfgRoute.sinkName ∉ routeRecOther.sinks →
      ∀ d, (d, routeRecOther) ∉ flushAssign cfgRoute routeRecs) ∧
    (routeRecOther.sinks = [] →
      (routeDest cfgRoute.routeKey cfgRoute.mappedKeys routeRecOther, routeRecOther)
        ∈ flushAssign cfgRoute routeRecs) :=
  sfx_route_hints cfgRoute routeRecs routeRecOther (by decide) (by decide)

end SignalFx

namespace Datadog

/-! ## Chunking arithmetic -/

/-- The worker count of `Flush` as a natural number, valid for `n ≥ 1`. -/
def natWorkers (n m : Nat) : Nat := (n - 1) / m + 1

/-- The chunk size of `Flush` as a natural number, valid for `n ≥ 1`. -/
def natChunk (n m : Nat) : Nat := (n - 1) / natWorkers n m + 1

theorem tdiv_natCast (a b : Nat) : Int.tdiv (a : Int) (b : Int) = ((a / b : Nat) : Int) := rfl

theorem flushPlan_pos (n m : Nat) (hn : 1 ≤ n) (hm : 1 ≤ m) :
    flushPlan n m = some ((natWorkers n m : Int), (natChunk n m : Int)) := by
  obtain ⟨n', rfl⟩ : ∃ n', n = n' + 1 := ⟨n - 1, by omega⟩
  have hm0 : (m : Int) ≠ 0 := Int.natCast_ne_zero.mpr (by omega)
  have hcast : ((n' + 1 : Nat) : Int) - 1 = ((n' : Nat) : Int) := by push_cast; ring
  have e1 : ((n' / m : Nat) : Int) + 1 = ((natWorkers (n' + 1) m : Nat) : Int) := by
    rw [natWorkers]
    push_cast
    simp
  have hW0 : ((natWorkers (n' + 1) m : Nat) : Int) ≠ 0 := by
    rw [← e1]
    positivity
  unfold flushPlan goDiv
  rw [hcast, if_neg hm0, tdiv_natCast, Option.some_bind, e1, if_neg hW0, tdiv_natCast]
  rw [natChunk]
  push_cast
  simp [natWorkers]

theorem natWorkers_eq_ceil (n m : Nat) (hn : 1 ≤ n) (hm : 1 ≤ m) :
    natWorkers n m = (n + m - 1) / m := by
  obtain ⟨n', rfl⟩ : ∃ n', n = n' + 1 := ⟨n - 1, by omega⟩
  have : n' + 1 + m - 1 = n' + m := by omega
  rw [natWorkers, this, Nat.add_div_right _ hm]
  simp

theorem natChunk_eq_ceil (n m : Nat) (hn : 1 ≤ n) :
    natChunk n m = (n + natWorkers n m - 1) / natWorkers n m := by
  obtain ⟨n', rfl⟩ : ∃ n', n = n' + 1 := ⟨n - 1, by omega⟩
  have hW : 1 ≤ natWorkers (n' + 1) m := Nat.le_add_left 1 _
  have : n' + 1 + natWorkers (n' + 1) m - 1 = n' + natWorkers (n' + 1) m := by omega
  rw [natChunk, this, Nat.add_div_right _ hW]
  simp

theorem le_natWorkers_mul_natChunk (n m : Nat) (hn : 1 ≤ n) :
    n ≤ natWorkers n m * natChunk n m := by
  obtain ⟨n', rfl⟩ : ∃ n', n = n' + 1 := ⟨n - 1, by omega⟩
  have hW : 0 < natWorkers (n' + 1) m := by rw [natWorkers]; exact Nat.succ_pos _
  have h1 : natWorkers (n' + 1) m * (n' / natWorkers (n' + 1) m)
      + n' % natWorkers (n' + 1) m = n' := Nat.div_add_mod n' _
  have h2 : n' % natWorkers (n' + 1) m < natWorkers (n' + 1) m := Nat.mod_lt _ hW
  have hmul : natWorkers (n' + 1) m * natChunk (n' + 1) m
      = natWorkers (n' + 1) m * (n' / natWorkers (n' + 1) m) + natWorkers (n' + 1) m := by
    rw [natChunk]
    simp only [Nat.add_sub_cancel]
    rw [Nat.mul_succ]
  omega

theorem natChunk_le (n m : Nat) (hn : 1 ≤ n) (hm : 1 ≤ m) :
    natChunk n m ≤ m := by
  obtain ⟨n', rfl⟩ : ∃ n', n = n' + 1 := ⟨n - 1, by omega⟩
  have hW : 0 < natWorkers (n' + 1) m := by rw [natWorkers]; exact Nat.succ_pos _
  have h1 : m * (n' / m) + n' % m = n' := Nat.div_add_mod n' m
  have h2 : n' % m < m := Nat.mod_lt _ hm
  have hmul : m * natWorkers (n' + 1) m = m * (n' / m) + m := by
    rw [natWorkers]
    simp only [Nat.add_sub_cancel]
    rw [Nat.mul_succ]
  have hdiv : n' / natWorkers (n' + 1) m < m :=
    (Nat.div_lt_iff_lt_mul hW).mpr (by omega)
  rw [natChunk]
  simp only [Nat.add_sub_cancel]
  omega

theorem pred_natWorkers_mul_natChunk_lt (n m : Nat) (hn : 1 ≤ n) (hm : 1 ≤ m) :
    (natWorkers n m - 1) * natChunk n m < n := by
  obtain ⟨n', rfl⟩ : ∃ n', n = n' + 1 := ⟨n - 1, by omega⟩
  have h1 : natWorkers (n' + 1) m - 1 = n' / m := by rw [natWorkers]; simp
  calc (natWorkers (n' + 1) m - 1) * natChunk (n' + 1) m
      = n' / m * natChunk (n' + 1) m := by rw [h1]
    _ ≤ n' / m * m := Nat.mul_le_mul_left _ (natChunk_le (n' + 1) m (Nat.le_add_left 1 _) hm)
    _ ≤ n' := Nat.div_mul_le_self n' m
    _ < n' + 1 := Nat.lt_succ_self n'

/-! ## Chunk-list lemmas -/

/-- The chunk list built by `Flush`'s dispatch loop, abstracted over the
chunk size `c` and worker count `k`. -/
def chunkList {α : Type} (c k : Nat) (l : List α) : List (List α) :=
  (List.range k).map fun i =>
    let chunk := l.drop (i * c)
    if i < k - 1 then chunk.take c else chunk

theorem flushChunks_eq_chunkList (metrics : List DDMetric) (m : Nat) :
    flushChunks metrics m =
      (flushPlan metrics.length m).map fun wc => chunkList wc.2.toNat wc.1.toNat metrics := rfl

theorem chunkList_length {α : Type} (c k : Nat) (l : List α) :
    (chunkList c k l).length = k := by
  simp [chunkList]

theorem chunkList_one {α : Type} (c : Nat) (l : List α) : chunkList c 1 l = [l] := by
  have h1 : List.range 1 = [0] := rfl
  simp [chunkList, h1, Nat.zero_mul, List.drop_zero]

theorem chunkList_succ {α : Type} (c k : Nat) (l : List α) (hk : 1 ≤ k) :
    chunkList c (k + 1) l = l.take c :: chunkList c k (l.drop c) := by
  rw [chunkList, List.range_succ_eq_map, List.map_cons]
  congr 1
  · rw [if_pos (by omega), Nat.zero_mul, List.drop_zero]
  · rw [List.map_map, chunkList]
    apply List.map_congr_left
    intro i hi
    have hik : i < k := List.mem_range.mp hi
    simp only [Function.comp_apply]
    by_cases h : i + 1 < k
    · rw [if_pos (by omega : Nat.succ i < k + 1 - 1), if_pos (by omega : i < k - 1),
        List.drop_drop]
      congr 2
      rw [Nat.succ_mul]
      ring
    · rw [if_neg (by omega : ¬ Nat.succ i < k + 1 - 1), if_neg (by omega : ¬ i < k - 1),
        List.drop_drop]
      congr 1
      rw [Nat.succ_mul]
      ring

theorem chunkList_flatten {α : Type} (c k : Nat) (l : List α) (hk : 1 ≤ k) :
    (chunkList c k l).flatten = l := by
  induction k generalizing l with
  | zero => omega
  | succ k ih =>
    rcases Nat.lt_or_ge k 1 with h1 | h2
    · have : k = 0 := by omega
      subst this
      rw [chunkList_one]
      simp
    · rw [chunkList_succ c k l h2, List.flatten_cons, ih (l.drop c) h2,
        List.take_append_drop]

theorem chunkList_getD {α : Type} (c k : Nat) (l : List α) (i : Nat) (hi : i < k) :
    (chunkList c k l).getD i [] =
      if i < k - 1 then (l.drop (i * c)).take c else l.drop (i * c) := by
  rw [List.getD_eq_getElem _ _ (by simpa [chunkList_length] using hi)]
  simp only [chunkList, List.getElem_map, List.getElem_range]

/-! ## The empty flush -/

theorem tdiv_neg_one (m : Nat) (hm : 2 ≤ m) : Int.tdiv (-1) (m : Int) = 0 := by
  have hlt : (1 : Int) < (m : Int) := by exact_mod_cast (by omega : 1 < m)
  have h0 : Int.tdiv (1 : Int) (m : Int) = 0 := Int.tdiv_eq_zero_of_lt (by norm_num) hlt
  calc Int.tdiv (-1) (m : Int) = - Int.tdiv 1 (m : Int) := Int.neg_tdiv 1 (m : Int)
    _ = 0 := by rw [h0]; norm_num

/-- On an empty metric list `workers` evaluates to `(-1)/m + 1 = 1` for
`m ≥ 2` (Go division truncates toward zero) and `chunkSize` to
`(-1)/1 + 1 = 0`. -/
theorem flushPlan_zero (m : Nat) (hm : 2 ≤ m) : flushPlan 0 m = some (1, 0) := by
  have hm0 : (m : Int) ≠ 0 := Int.natCast_ne_zero.mpr (by omega)
  have hc : ((0 : Nat) : Int) - 1 = -1 := by norm_num
  unfold flushPlan goDiv
  rw [hc, if_neg hm0, tdiv_neg_one m hm, Option.some_bind]
  decide

/-- On an empty metric list with `flushMaxPerBody = 1`, `workers` evaluates
to `(-1)/1 + 1 = 0` and the `chunkSize` division panics (divides by zero). -/
theorem flushPlan_zero_one : flushPlan 0 1 = none := by decide

/-! ## Concrete fixtures used in witnesses and counterexamples -/

/-- A sink configured with `flushMaxPerBody = 1`. -/
def sinkOne : Sink :=
  { hostname := "glooblestoots", tags := [], interval := 10, flushMaxPerBody := 1 }

/-- A sink configured with `flushMaxPerBody = 2`. -/
def sinkTwo : Sink :=
  { hostname := "glooblestoots", tags := [], interval := 10, flushMaxPerBody := 2 }

/-- A simple gauge record. -/
def gaugeRec (nm : String) : InterMetric :=
  { name := nm, timestamp := 1476119058, value := 100, tags := [], type := .gauge }

/-- Five gauge records. -/
def interFive : List InterMetric :=
  [gaugeRec "a", gaugeRec "b", gaugeRec "c", gaugeRec "d", gaugeRec "e"]

/-- One gauge record. -/
def interOne : List InterMetric := [gaugeRec "x"]

/-- A record of the status type, which the Datadog `switch` does not
handle. -/
def statusRec : InterMetric :=
  { name := "a.b.c", timestamp := 1476119058, value := 3, tags := ["foo:bar"], type := .status }

/-- A gauge record carrying a bare `host` tag (no colon). -/
def bareHostRec : InterMetric :=
  { name := "x", timestamp := 1476119058, value := 1, tags := ["host"], type := .gauge }

/-- A gauge record carrying `host:`/`device:` magic tags and a plain tag. -/
def hostDevRec : InterMetric :=
  { name := "x", timestamp := 1476119058, value := 1,
    tags := ["host:h1", "device:d1", "foo:bar"], type := .gauge }

/-! ## The chunking specification for a non-empty metric list -/

theorem finalizeMetrics_length (dd : Sink) (inter : List InterMetric) :
    (finalizeMetrics dd inter).length = inter.length := by
  simp [finalizeMetrics]

theorem chunkList_spec (L : List DDMetric) (m : Nat) (hn : 1 ≤ L.length) (hm : 1 ≤ m) :
    flushChunks L m = some (chunkList (natChunk L.length m) (natWorkers L.length m) L) ∧
    (chunkList (natChunk L.length m) (natWorkers L.length m) L).length = natWorkers L.length m ∧
    (chunkList (natChunk L.length m) (natWorkers L.length m) L).flatten = L ∧
    (∀ i, i + 1 < natWorkers L.length m →
      ((chunkList (natChunk L.length m) (natWorkers L.length m) L).getD i []).length
        = natChunk L.length m) ∧
    ((chunkList (natChunk L.length m) (natWorkers L.length m) L).getD
        (natWorkers L.length m - 1) []).length ≤ natChunk L.length m := by
  obtain ⟨W, hW⟩ : ∃ W, natWorkers L.length m = W := ⟨_, rfl⟩
  obtain ⟨C, hC⟩ : ∃ C, natChunk L.length m = C := ⟨_, rfl⟩
  have hW1 : 1 ≤ W := by rw [← hW, natWorkers]; exact Nat.succ_le_succ (Nat.zero_le _)
  have hWC : L.length ≤ W * C := by
    have := le_natWorkers_mul_natChunk L.length m hn
    rwa [hW, hC] at this
  have hpred : (W - 1) * C < L.length := by
    have := pred_natWorkers_mul_natChunk_lt L.length m hn hm
    rwa [hW, hC] at this
  rw [hW, hC]
  refine ⟨?_, chunkList_length C W L, chunkList_flatten C W L hW1, ?_, ?_⟩
  · rw [flushChunks_eq_chunkList, flushPlan_pos L.length m hn hm, hW, hC]
    simp
  · intro i hi
    rw [chunkList_getD C W L i (by omega), if_pos (by omega : i < W - 1)]
    rw [List.length_take, List.length_drop]
    have h2 : (i + 1) * C ≤ (W - 1) * C := Nat.mul_le_mul_right C (by omega)
    have h4 : (i + 1) * C = i * C + C := Nat.succ_mul i C
    omega
  · rw [chunkList_getD C W L (W - 1) (by omega), if_neg (by omega : ¬ W - 1 < W - 1)]
    rw [List.length_drop]
    have h5 : (W - 1 + 1) * C = (W - 1) * C + C := Nat.succ_mul (W - 1) C
    have h6 : W - 1 + 1 = W := by omega
    rw [h6] at h5
    omega

/-- C2: for a Flush of `n ≥ 1` formatted records with `maxPerBody ≥ 1`,
the dispatcher computes `workers = ⌈n / maxPerBody⌉` and
`chunkSize = ⌈n / workers⌉`, and submits exactly `workers` chunks whose
in-order concatenation is the formatted record list; each of the first
`workers - 1` chunks has exactly `chunkSize` records and the last chunk
holds the remainder, at most `chunkSize` records. -/
theorem flush_chunking (submit : List DDMetric → Option String) (dd : Sink)
    (inter : List InterMetric) (hn : 1 ≤ inter.length) (hm : 1 ≤ dd.flushMaxPerBody) :
    ∃ cs : List (List DDMetric),
      flushChunks (finalizeMetrics dd inter) dd.flushMaxPerBody = some cs ∧
      Flush submit dd inter = some (cs.map submit, none) ∧
      cs.length = (inter.length + dd.flushMaxPerBody - 1) / dd.flushMaxPerBody ∧
      cs.flatten = finalizeMetrics dd inter ∧
      (∀ i, i + 1 < cs.length →
        (cs.getD i []).length = (inter.length + cs.length - 1) / cs.length) ∧
      (cs.getD (cs.length - 1) []).length ≤ (inter.length + cs.length - 1) / cs.length := by
  have hfin : (finalizeMetrics dd inter).length = inter.length :=
    finalizeMetrics_length dd inter
  have hn' : 1 ≤ (finalizeMetrics dd inter).length := by omega
  obtain ⟨h1, h2, h3, h4, h5⟩ :=
    chunkList_spec (finalizeMetrics dd inter) dd.flushMaxPerBody hn' hm
  rw [hfin] at h1 h2 h3 h4 h5
  refine ⟨chunkList (natChunk inter.length dd.flushMaxPerBody)
      (natWorkers inter.length dd.flushMaxPerBody)
      (finalizeMetrics dd inter), h1, ?_, ?_, h3, ?_, ?_⟩
  · simp only [Flush]
    rw [h1]
    rfl
  · rw [h2, natWorkers_eq_ceil inter.length dd.flushMaxPerBody hn hm]
  · intro i hi
    rw [h2] at hi ⊢
    rw [h4 i hi]
    exact natChunk_eq_ceil inter.length dd.flushMaxPerBody hn
  · rw [h2]
    rw [← natChunk_eq_ceil inter.length dd.flushMaxPerBody hn]
    exact h5

/-- Witness for C2 at five records and `maxPerBody = 2`
(`workers = 3`, `chunkSize = 2`, chunks of sizes 2, 2, 1). -/
theorem flush_chunking_witness :
    ∃ cs : List (List DDMetric),
      flushChunks (finalizeMetrics sinkTwo interFive) sinkTwo.flushMaxPerBody = some cs ∧
      Flush (fun _ => some "boom") sinkTwo interFive = some (cs.map (fun _ => some "boom"), none) ∧
      cs.length = (interFive.length + sinkTwo.flushMaxPerBody - 1) / sinkTwo.flushMaxPerBody ∧
      cs.flatten = finalizeMetrics sinkTwo interFive ∧
      (∀ i, i + 1 < cs.length →
        (cs.getD i []).length = (interFive.length + cs.length - 1) / cs.length) ∧
      (cs.getD (cs.length - 1) []).length ≤ (interFive.length + cs.length - 1) / cs.length :=
  flush_chunking (fun _ => some "boom") sinkTwo interFive (by decide) (by decide)

/-! ## Error aggregation (claim C1) -/

/-- The specification claim C1 as stated: whenever any chunk's submission
returns an error, `Flush` returns a non-nil aggregate error, and `Flush`
returns nil only when every chunk submission succeeded. -/
def ErrorAggregationClaim : Prop :=
  ∀ (submit : List DDMetric → Option String) (dd : Sink) (inter : List InterMetric)
    (res : List (Option String) × Option String),
    Flush submit dd inter = some res →
    ((∃ e ∈ res.1, e ≠ none) → res.2 ≠ none) ∧
    (res.2 = none → ∀ e ∈ res.1, e = none)

/-- C1 counterexample: with a destination whose submission always fails
and a single gauge record, the one chunk submission errors, yet `Flush`
returns nil (`flushPart` discards `postHelper`'s error and `Flush` ends
with `return nil`). -/
theorem flush_error_aggregation_cex : ¬ ErrorAggregationClaim := by
  intro h
  have hres : Flush (fun _ => some "boom") sinkOne interOne = some ([some "boom"], none) := rfl
  have h2 := (h (fun _ => some "boom") sinkOne interOne ([some "boom"], none) hres).1
  exact h2 ⟨some "boom", by simp⟩ rfl

/-- C1 amended: `Flush` submits every chunk exactly once, in order, and
then returns nil unconditionally; the per-chunk submission errors are
discarded rather than aggregated. -/
theorem flush_discards_errors (submit : List DDMetric → Option String) (dd : Sink)
    (inter : List InterMetric) (cs : List (List DDMetric))
    (h : flushChunks (finalizeMetrics dd inter) dd.flushMaxPerBody = some cs) :
    Flush submit dd inter = some (cs.map submit, none) := by
  simp only [Flush]
  rw [h]
  rfl

/-- Witness for the amended C1: a failing submission on one record still
yields a nil `Flush` result. -/
theorem flush_discards_errors_witness :
    Flush (fun _ => some "boom") sinkOne interOne = some ([some "boom"], none) :=
  flush_discards_errors (fun _ => some "boom") sinkOne interOne
    [finalizeMetrics sinkOne interOne] rfl

/-! ## The zero-record flush (claim C3) -/

/-- The specification claim C3 as stated, for the Datadog sink's single
destination: a `Flush` of an empty record list makes no submission call at
all and returns no error. -/
def EmptyFlushClaim : Prop :=
  ∀ (submit : List DDMetric → Option String) (dd : Sink),
    ∃ res : List (Option String) × Option String,
      Flush submit dd [] = some res ∧ res.1 = [] ∧ res.2 = none

/-- C3 counterexample: with `flushMaxPerBody = 2`, a `Flush` of the empty
record list still makes exactly one submission call, carrying an empty
chunk. -/
theorem flush_empty_cex : ¬ EmptyFlushClaim := by
  intro h
  obtain ⟨res, h1, h2, h3⟩ := h (fun _ => none) sinkTwo
  rw [show Flush (fun _ => none) sinkTwo [] = some ([none], none) from rfl] at h1
  cases h1
  exact absurd h2 (by simp)

/-- C3 amended: on an empty record list the Datadog `Flush` still makes
exactly one submission call with an empty chunk when
`flushMaxPerBody ≥ 2` (returning nil), and panics with a division by zero
when `flushMaxPerBody = 1`. -/
theorem flush_empty_behavior (submit : List DDMetric → Option String) (dd : Sink) :
    (2 ≤ dd.flushMaxPerBody → Flush submit dd [] = some ([submit []], none)) ∧
    (dd.flushMaxPerBody = 1 → Flush submit dd [] = none) := by
  constructor
  · intro hm
    simp only [Flush]
    have hfin : finalizeMetrics dd ([] : List InterMetric) = [] := rfl
    rw [hfin, flushChunks_eq_chunkList]
    have hlen : ([] : List DDMetric).length = 0 := rfl
    rw [hlen, flushPlan_zero dd.flushMaxPerBody hm]
    rfl
  · intro hm
    simp only [Flush]
    have hfin : finalizeMetrics dd ([] : List InterMetric) = [] := rfl
    rw [hfin, flushChunks_eq_chunkList]
    have hlen : ([] : List DDMetric).length = 0 := rfl
    rw [hlen, hm, flushPlan_zero_one]
    rfl

/-- Witness for the amended C3 at concrete sinks with
`flushMaxPerBody = 2` and `flushMaxPerBody = 1`. -/
theorem flush_empty_behavior_witness :
    Flush (fun _ => some "boom") sinkTwo [] = some ([some "boom"], none) ∧
    Flush (fun _ => some "boom") sinkOne [] = none :=
  ⟨(flush_empty_behavior (fun _ => some "boom") sinkTwo).1 (by decide),
   (flush_empty_behavior (fun _ => some "boom") sinkOne).2 (by decide)⟩

/-! ## The chunking panic (claim C9) -/

/-- C9: the chunking arithmetic is *not* always in bounds. On an empty
metric list with `flushMaxPerBody = 1`, `workers = ((0-1)/1)+1` evaluates
to `0` (not `≥ 1` as claimed), and the `chunkSize` division
`((0-1)/workers)` divides by zero, so `Flush` panics. -/
theorem flush_empty_maxone_panics :
    goDiv ((0 : Int) - 1) 1 = some (-1) ∧
    flushPlan 0 1 = none ∧
    Flush (fun _ => none) sinkOne [] = none := by
  refine ⟨by decide, flushPlan_zero_one, rfl⟩

/-! ## Unknown metric types (claim C4) -/

/-- C4: a record whose type is neither counter nor gauge is *not* merely
skipped: because `finalizeMetrics` pre-allocates
`make([]DDMetric, len(metrics))` and `continue`s, the skipped record's
slot keeps the zero `DDMetric`, which is submitted in the series payload.
Other records of the same batch are still formatted, and `Flush` still
returns nil. -/
theorem finalize_unknown_type_emits_zero :
    finalizeMetrics sinkOne [statusRec] = [zeroDDMetric] ∧
    flushChunks (finalizeMetrics sinkOne [statusRec]) sinkOne.flushMaxPerBody
      = some [[zeroDDMetric]] ∧
    finalizeMetrics sinkOne [statusRec, gaugeRec "g"]
      = [zeroDDMetric, finalizeOne sinkOne (gaugeRec "g")] ∧
    Flush (fun _ => none) sinkOne [statusRec] = some ([none], none) :=
  ⟨rfl, rfl, rfl, rfl⟩

/-! ## Magic tags (claim C6) -/

theorem scanTag_tags (tags : List String) (acc : DDMetric) :
    (tags.foldl scanTag acc).tags =
      acc.tags ++ tags.filter
        (fun t => !(goStartsWith t "host:") && !(goStartsWith t "device:")) := by
  induction tags generalizing acc with
  | nil => simp
  | cons t ts ih =>
    rw [List.foldl_cons, ih]
    by_cases h1 : goStartsWith t "host:"
    · simp [scanTag, h1, List.filter_cons]
    · by_cases h2 : goStartsWith t "device:"
      · simp [scanTag, h1, h2, List.filter_cons]
      · simp [scanTag, h1, h2, List.filter_cons, List.append_assoc]

theorem scanTag_hostname (tags : List String) (acc : DDMetric) :
    (tags.foldl scanTag acc).hostname =
      tags.foldl (fun a t => if goStartsWith t "host:" then goDropChars t 5 else a)
        acc.hostname := by
  induction tags generalizing acc with
  | nil => rfl
  | cons t ts ih =>
    rw [List.foldl_cons, ih, List.foldl_cons]
    by_cases h1 : goStartsWith t "host:"
    · simp [scanTag, h1]
    · by_cases h2 : goStartsWith t "device:"
      · simp [scanTag, h1, h2]
      · simp [scanTag, h1, h2]

theorem not_device_of_host (t : String) (h : goStartsWith t "host:" = true) :
    goStartsWith t "device:" = false := by
  unfold goStartsWith at h ⊢
  rw [ List.isPrefixOf_iff_prefix] at h
  by_contra hb
  rw [Bool.not_eq_false, List.isPrefixOf_iff_prefix] at hb
  obtain ⟨r1, e1⟩ := h
  obtain ⟨r2, e2⟩ := hb
  rw [← e1] at e2
  have hdh : ('d' : Char) = 'h' := by
    have h3 := congrArg (fun l => l.headD ' ') e2
    simpa using h3
  exact absurd hdh (by decide)

theorem scanTag_deviceName (tags : List String) (acc : DDMetric) :
    (tags.foldl scanTag acc).deviceName =
      tags.foldl (fun a t => if goStartsWith t "device:" then goDropChars t 7 else a)
        acc.deviceName := by
  induction tags generalizing acc with
  | nil => rfl
  | cons t ts ih =>
    rw [List.foldl_cons, ih, List.foldl_cons]
    by_cases h1 : goStartsWith t "host:"
    · simp [scanTag, h1, not_device_of_host t h1]
    · by_cases h2 : goStartsWith t "device:"
      · simp [scanTag, h1, h2]
      · simp [scanTag, h1, h2]

/-- The specification claim C6 as stated, with "a tag with the reserved key
`host` (resp. `device`)" read through the spec's own tag-parsing
convention (`tagKey`, the part before the first colon): such a tag is
consumed, never emitted on the wire record, its value overrides the
hostname, and absent any host magic tag the hostname is the sink's
configured hostname. -/
def MagicTagClaim : Prop :=
  ∀ (dd : Sink) (m : InterMetric), knownType m.type = true →
    (∀ t ∈ m.tags, (tagKey t = "host" ∨ tagKey t = "device") →
        t ∉ (finalizeOne dd m).tags) ∧
    (∀ t ∈ m.tags, tagKey t = "host" → (finalizeOne dd m).hostname = tagVal t) ∧
    ((∀ t ∈ m.tags, tagKey t ≠ "host") → (finalizeOne dd m).hostname = dd.hostname)

/-- C6 counterexample: a bare `host` tag (no colon) has the reserved key
`host` under the spec's parsing convention, but `strings.HasPrefix(tag,
"host:")` does not match it, so the code emits it as an ordinary tag
instead of consuming it. -/
theorem finalize_magic_tags_cex : ¬ MagicTagClaim := by
  intro h
  have h1 := (h sinkOne bareHostRec rfl).1 "host" (by decide) (Or.inl (by decide))
  exact h1 (by decide)

/-- C6 amended: only tags that literally start with `host:` (resp.
`device:`) are magic: they are consumed (never contributing to the wire
record's tags) and the hostname becomes the value of the last `host:` tag
when that value is non-empty, and the sink's configured hostname otherwise
(in particular when there is no `host:` tag); the device name is the value
of the last `device:` tag. A bare `host` or `device` tag without a colon
is emitted as an ordinary tag. -/
theorem finalize_magic_tags (dd : Sink) (m : InterMetric) (h : knownType m.type = true) :
    (finalizeOne dd m).tags =
      dd.tags ++ m.tags.filter
        (fun t => !(goStartsWith t "host:") && !(goStartsWith t "device:")) ∧
    (finalizeOne dd m).hostname =
      (if m.tags.foldl (fun a t => if goStartsWith t "host:" then goDropChars t 5 else a) "" = ""
       then dd.hostname
       else m.tags.foldl (fun a t => if goStartsWith t "host:" then goDropChars t 5 else a) "") ∧
    (finalizeOne dd m).deviceName =
      m.tags.foldl (fun a t => if goStartsWith t "device:" then goDropChars t 7 else a) "" := by
  simp only [finalizeOne]
  by_cases hh :
      (m.tags.foldl scanTag
        { name := m.name
          value := ((m.timestamp : ℚ),
            match m.type with
            | .counter => m.value / dd.interval
            | _ => m.value)
          tags := dd.tags
          metricType :=
            match m.type with
            | .counter => "rate"
            | .gauge => "gauge"
            | .status => ""
          hostname := ""
          deviceName := ""
          interval := goTruncQ dd.interval }).hostname = ""
  · rw [if_pos hh]
    refine ⟨?_, ?_, ?_⟩
    · rw [scanTag_tags]
    · rw [scanTag_hostname] at hh
      rw [if_pos hh]
    · rw [scanTag_deviceName]
  · rw [if_neg hh]
    refine ⟨?_, ?_, ?_⟩
    · rw [scanTag_tags]
    · rw [scanTag_hostname] at hh ⊢
      rw [if_neg hh]
    · rw [scanTag_deviceName]

/-- Witness for the amended C6: a record with `host:h1`, `device:d1` and
`foo:bar` tags keeps only `foo:bar`, with hostname `h1` and device `d1`. -/
theorem finalize_magic_tags_witness :
    (finalizeOne sinkOne hostDevRec).tags =
      sinkOne.tags ++ hostDevRec.tags.filter
        (fun t => !(goStartsWith t "host:") && !(goStartsWith t "device:")) ∧
    (finalizeOne sinkOne hostDevRec).hostname =
      (if hostDevRec.tags.foldl
            (fun a t => if goStartsWith t "host:" then goDropChars t 5 else a) "" = ""
       then sinkOne.hostname
       else hostDevRec.tags.foldl
            (fun a t => if goStartsWith t "host:" then goDropChars t 5 else a) "") ∧
    (finalizeOne sinkOne hostDevRec).deviceName =
      hostDevRec.tags.foldl
        (fun a t => if goStartsWith t "device:" then goDropChars t 7 else a) "" :=
  finalize_magic_tags sinkOne hostDevRec rfl

/-! ## In-place mutation by FlushEventsChecks (claim C10) -/

theorem forall₂_map_self {α β : Type} (l : List α) (f : α → β) (R : α → β → Prop)
    (h : ∀ x ∈ l, R x (f x)) : List.Forall₂ R l (l.map f) := by
  induction l with
  | nil => simp
  | cons x xs ih =>
    rw [List.map_cons, List.forall₂_cons]
    exact ⟨h x (List.mem_cons_self x xs), ih (fun y hy => h y (List.mem_cons_of_mem x hy))⟩

/-- C10: `FlushEventsChecks` rewrites the caller's slices in place: every
event and check whose hostname is empty gets the sink's hostname, the
sink's common tags are appended to every event's and check's tags, and
running the same (already mutated) event slice through a second flush
appends the common tags a second time. -/
theorem flushEventsChecks_mutation (dd : Sink) (events : List UDPEvent)
    (checks : List UDPServiceCheck) :
    List.Forall₂ (fun e e' : UDPEvent =>
        e'.hostname = (if e.hostname = "" then dd.hostname else e.hostname) ∧
        e'.tags = e.tags ++ dd.tags)
      events (FlushEventsChecks dd events checks).1 ∧
    List.Forall₂ (fun c c' : UDPServiceCheck =>
        c'.hostname = (if c.hostname = "" then dd.hostname else c.hostname) ∧
        c'.tags = c.tags ++ dd.tags)
      checks (FlushEventsChecks dd events checks).2 ∧
    List.Forall₂ (fun e e' : UDPEvent => e'.tags = (e.tags ++ dd.tags) ++ dd.tags)
      events
      (FlushEventsChecks dd (FlushEventsChecks dd events checks).1
        (FlushEventsChecks dd events checks).2).1 := by
  refine ⟨forall₂_map_self events _ _ (fun e _ => ⟨rfl, rfl⟩),
    forall₂_map_self checks _ _ (fun c _ => ⟨rfl, rfl⟩), ?_⟩
  show List.Forall₂ _ events ((events.map _).map _)
  rw [List.map_map]
  exact forall₂_map_self events _ _ (fun e _ => rfl)

end Datadog

end Veneur
